import Mathlib

/-!
Verification of the automation-aware audio recorder/player engine
(`src/main.rs` of the Audio repository).

The Rust source is shallowly embedded: pure computations become Lean
functions; the two worker loops (Recorder callback, Player tick loop)
become explicit state-passing step functions folded over ticks/buffers.
Machine integers (`i32`, `usize`) are modelled as `Int`/`Nat`; no input
used here comes near the `i32` range, and where the source assigns
`i32::MAX` the exact constant `2147483647` is used.  Audio samples
(`f32` compared only against exact `0.0`) are modelled as `Int`, which
preserves the only property the code inspects: being zero or not.
Strings are ASCII in every claim, so Rust's byte length (`String::len`)
coincides with the character count used in the embedding.
-/

namespace Audio

/-- The six dial values `[i32; 6]` (five band gains plus pan).  The source
always works with fixed six-element arrays; the embedding uses a list and
indexes with `getD`, which agrees with array indexing on the length-6
lists that actually occur. -/
abbrev Dials := List Int

/-- The zeroed dial vector `[0, 0, 0, 0, 0, 0]`. -/
def zeroDials : Dials := [0, 0, 0, 0, 0, 0]

/-- One automation keyframe `([i32; 6], i32)`: dial values plus the tick
(frame counter) at which they were captured. -/
abbrev Frame := Dials × Int

/-- Recording data (src/main.rs:559-568): a name plus the six control
values stored as separate fields. -/
structure Recording where
  name : String
  sub_bass : Int
  bass : Int
  low_mids : Int
  high_mids : Int
  treble : Int
  pan : Int
deriving DecidableEq

/-- `Recording::new` (src/main.rs:571-582): fresh recording with all six
controls zero. -/
def Recording.new (name : String) : Recording :=
  { name := name, sub_bass := 0, bass := 0, low_mids := 0, high_mids := 0
    treble := 0, pan := 0 }

/-- `Recording::from` (src/main.rs:584-595): recording built from a name
and a dial-value array. -/
def Recording.from (name : String) (values : Dials) : Recording :=
  { name := name
    sub_bass := values.getD 0 0
    bass := values.getD 1 0
    low_mids := values.getD 2 0
    high_mids := values.getD 3 0
    treble := values.getD 4 0
    pan := values.getD 5 0 }

/-- `Recording::parse` (src/main.rs:597-609): the six control fields as a
dial-value array. -/
def Recording.parse (r : Recording) : Dials :=
  [r.sub_bass, r.bass, r.low_mids, r.high_mids, r.treble, r.pan]

/-- Inner loop of `SnapShot::edited` (src/main.rs:483-494): walk indices
`0..6`; `continue` on an equal pair, return `true` on the first unequal
pair.  The second argument is the remaining fuel (six at the start). -/
def editedAux (previous next : Dials) : Nat → Nat → Bool
  | _, 0 => false
  | i, fuel + 1 =>
    if previous.getD i 0 = next.getD i 0 then editedAux previous next (i + 1) fuel
    else true

/-- `SnapShot::edited` (src/main.rs:483-494): have the dial values changed
between `previous` and `next`? -/
def SnapShot.edited (previous next : Dials) : Bool :=
  editedAux previous next 0 6

/-- `SnapShot::new` (src/main.rs:476-481): a fresh snapshot holds the
single synthetic seed frame `([0,0,0,0,0,0], 0)`. -/
def SnapShot.newFrames : List Frame := [(zeroDials, 0)]

/- ------------------------------------------------------------------
   Natural-order comparator (`TextNum` and the `File::search` sort).
   ------------------------------------------------------------------ -/

/-- `TextNum` (src/main.rs:104-108): a run of text characters or a parsed
whole number. -/
inductive TextNum where
  | text (s : List Char) : TextNum
  | num (n : Int) : TextNum
deriving DecidableEq

/-- Parse a digit run into the whole number it denotes
(`number.parse::<i32>()` on a run of ASCII digits). -/
def parseDigits (s : List Char) : Int :=
  s.foldl (fun acc c => acc * 10 + (c.toNat - '0'.toNat : Nat)) 0

/-- A character parses as a number in `char.to_string().parse::<i32>()`
exactly when it is an ASCII digit. -/
def charIsNum (c : Char) : Bool := c.isDigit

/-- Loop body of `TextNum::split_text_and_numbers` (src/main.rs:111-162).
State: pending `text` and `number` runs, the two `adding_*` flags, the
output list built so far, the current char `index` and the input length
(the source's `index == input.len() - 1` last-char test). -/
def splitGo (len : Nat) :
    List Char → Nat → List Char → List Char → Bool → Bool → List TextNum → List TextNum
  | [], _, _, _, _, _, acc => acc
  | c :: rest, index, text, number, addingText, addingNumber, acc =>
    if charIsNum c then
      -- digit branch: push digit, flush a pending text run, flush the
      -- number itself when on the last character
      let number' := number ++ [c]
      let acc' := if addingText ∧ text.length > 0 then acc ++ [TextNum.text text] else acc
      let text' := if addingText then [] else text
      let acc'' := if index = len - 1 then acc' ++ [TextNum.num (parseDigits number')] else acc'
      splitGo len rest (index + 1) text' number' false true acc''
    else
      -- text branch: mirror image of the digit branch
      let text' := text ++ [c]
      let acc' := if addingNumber ∧ number.length > 0 then acc ++ [TextNum.num (parseDigits number)] else acc
      let number' := if addingNumber then [] else number
      let acc'' := if index = len - 1 then acc' ++ [TextNum.text text'] else acc'
      splitGo len rest (index + 1) text' number' true false acc''

/-- `TextNum::split_text_and_numbers` (src/main.rs:111-162): split a string
into alternating text runs and whole-number runs. -/
def splitTextAndNumbers (input : List Char) : List TextNum :=
  splitGo input.length input 0 [] [] false false []

/-- Text-run versus text-run comparison inside the `File::search`
comparator (src/main.rs:257-283): one length bias (shorter side first),
then one bias per differing character over the common character span. -/
def textBias (first second : List Char) (b : Int × Int) : Int × Int :=
  let b₀ :=
    if first.length ≤ second.length then
      if first.length < second.length then (b.1, b.2 + 1) else b
    else (b.1 + 1, b.2)
  (List.zip first second).foldl
    (fun acc p =>
      if p.1 > p.2 then (acc.1 + 1, acc.2)
      else if p.1 < p.2 then (acc.1, acc.2 + 1)
      else acc) b₀

/-- The `i32::MAX` bias the comparator assigns when a text run faces a
number run (src/main.rs:245-256). -/
def maxBias : Int := 2147483647

/-- Bias-accumulation loop of the `File::search` comparator
(src/main.rs:236-299), walking the run-split common span of the two names.
A text-vs-number position assigns `maxBias` to the text side and stops;
text-vs-text and number-vs-number positions accumulate. -/
def biasLoop : List (TextNum × TextNum) → Int × Int → Int × Int
  | [], b => b
  | (TextNum.text _, TextNum.num _) :: _, b => (maxBias, b.2)
  | (TextNum.num _, TextNum.text _) :: _, b => (b.1, maxBias)
  | (TextNum.text f, TextNum.text s) :: rest, b => biasLoop rest (textBias f s b)
  | (TextNum.num f, TextNum.num s) :: rest, b =>
    biasLoop rest
      (if f > s then (b.1 + 1, b.2) else if f < s then (b.1, b.2 + 1) else b)

/-- The two accumulated bias totals of the comparator for a pair of names
(after the source's `to_lowercase` case fold and run split). -/
def biasTotals (string1 string2 : String) : Int × Int :=
  let compare1 := splitTextAndNumbers (string1.toList.map Char.toLower)
  let compare2 := splitTextAndNumbers (string2.toList.map Char.toLower)
  biasLoop (List.zip compare1 compare2) (0, 0)

/-- The full `File::search` comparator (src/main.rs:229-308): Greater,
Less or Equal according to the two accumulated bias totals. -/
def cmpNames (string1 string2 : String) : Ordering :=
  let b := biasTotals string1 string2
  if b.1 > b.2 then Ordering.gt
  else if b.1 < b.2 then Ordering.lt
  else Ordering.eq

/-- Insert into a sorted list in front of the first element not strictly
smaller — the insertion step of a stable comparator sort, matching Rust's
stable `sort_by` on the inputs considered here. -/
def insertCmp (cmp : String → String → Ordering) (a : String) :
    List String → List String
  | [] => [a]
  | b :: l => if cmp a b = Ordering.gt then b :: insertCmp cmp a l else a :: b :: l

/-- Stable comparator sort (Rust `Vec::sort_by` as used in `File::search`,
src/main.rs:229). -/
def sortByCmp (cmp : String → String → Ordering) : List String → List String
  | [] => []
  | a :: l => insertCmp cmp a (sortByCmp cmp l)

/- ------------------------------------------------------------------
   Errors, `File::truncate`, `File::exists`, recording-name generation.
   ------------------------------------------------------------------ -/

/-- The error enumeration (src/main.rs:41-61). -/
inductive Error where
  | SaveError | LoadError | RecordError | WriteError | ReadError
  | RenameError | DeleteError | FallbackError | EmptyError | ExistsError
  | SaveFileRenameError | PlaybackError | ShuffleError | DirectoryError
  | RecorderThreadError | PlayerThreadError | MessageError | EmptyRecordingError
deriving DecidableEq

/-- Loop of `File::truncate` (src/main.rs:316-342) viewed from the end of
the string (the reversed character list): strip trailing characters; each
stop character found is also removed, and the loop breaks once `pass` of
them have been passed.  `none` stands for the source's early
`return copy` (not enough stop characters: the `length == 1` test), and
is also returned if the characters run out (where the source would
underflow; unreachable for the inputs used). -/
def truncRev (stop : Char) (pass : Nat) : List Char → Nat → Option (List Char)
  | [], _ => none
  | c :: rest, found =>
    if c = stop then
      if found = pass then some rest
      else truncRev stop pass rest (found + 1)
    else if rest.length = 1 then none
    else truncRev stop pass rest found

/-- `File::truncate` (src/main.rs:316-342): truncate a string back to the
`(pass + 1)`-th occurrence of `stop` from the end, removing that
occurrence too; return the original string when not enough stops exist. -/
def File.truncate (name : String) (stop : Char) (pass : Nat) : String :=
  match truncRev stop pass name.toList.reverse 0 with
  | some rest => String.mk rest.reverse
  | none => name

/-- `File::exists` (src/main.rs:393-406): the for-loop with `break` is a
first-match scan — the name exists iff some catalog entry carries it. -/
def File.exists (new : String) (old_list : List Recording) : Bool :=
  old_list.any (fun r => r.name = new)

/-- Does `needle` start `haystack`? (helper for substring search). -/
def startsWithChars : List Char → List Char → Bool
  | _, [] => true
  | [], _ :: _ => false
  | a :: as, b :: bs => a = b && startsWithChars as bs

/-- Rust `str::contains` on a literal needle: substring search. -/
def containsSub : List Char → List Char → Bool
  | [], needle => needle.isEmpty
  | h :: rest, needle => startsWithChars (h :: rest) needle || containsSub rest needle

/-- The reserved fallback marker string (src/main.rs:1130, 690). -/
def fallbackMarker : String := "Default taken..."

/-- The fallback count of the Recorder thread (src/main.rs:1127-1133): the
number of existing clip names containing the fallback marker. -/
def countFallbacks (taken : List String) : Nat :=
  (taken.filter (fun n => containsSub n.toList fallbackMarker.toList)).length

/-- Name-candidate loop of the Recorder thread (src/main.rs:1141-1149):
walk the taken names; while the candidate differs keep (re)assigning
`"{potential}.wav"`, and on a collision assign the fallback name and
break. -/
def nameLoop (potential fallbackName : String) : List String → String → String
  | [], newName => newName
  | t :: rest, _newName =>
    if potential ≠ t then nameLoop potential fallbackName rest (potential ++ ".wav")
    else fallbackName

/-- New-recording name generation (src/main.rs:1122-1152): candidate
`"Recording {N+1}"` for N existing clips, fallback
`"Default taken... {k+1}"` on collision, fixed `"Recording 1"` when no
clips exist (all with the `.wav` extension the writer appends). -/
def generateName (taken : List String) : String :=
  if taken.length > 0 then
    let fallbacks := countFallbacks taken
    let potential := "Recording " ++ toString (taken.length + 1)
    nameLoop potential ("Default taken... " ++ toString (fallbacks + 1) ++ ".wav") taken ""
  else "Recording 1.wav"

/- ------------------------------------------------------------------
   Recorder capture callback (`record_callback`, src/main.rs:1163-1200).
   ------------------------------------------------------------------ -/

/-- State threaded through one recording session: the closure-captured
`initial_silence`, the shared `empty_recording` cell, and the samples the
`WavWriter` has received so far.  Samples are `f32` in the source,
inspected only for being exactly `0.0`; they are embedded as `Int`. -/
structure RecState where
  initialSilence : Bool
  empty : Bool
  written : List Int
deriving DecidableEq

/-- Per-sample loop of `record_callback` (src/main.rs:1173-1193) over the
`min(len1, len2)` sample pairs of one buffer: while `initial_silence`
holds, a non-zero pair flips both flags and is itself skipped by the
`continue`; afterwards pairs are interleaved into the output list. -/
def sampleLoop : List (Int × Int) → Bool → Bool → List Int → Bool × Bool × List Int
  | [], sil, emp, inter => (sil, emp, inter)
  | (a, b) :: rest, sil, emp, inter =>
    if sil then
      if a ≠ 0 ∨ b ≠ 0 then sampleLoop rest false false inter
      else sampleLoop rest sil emp inter
    else sampleLoop rest sil emp (inter ++ [a, b])

/-- One invocation of `record_callback` on a stereo buffer: run the sample
loop, then write the interleaved samples when silence has been broken
(src/main.rs:1195-1199; with silence unbroken the interleaved list is
empty anyway). -/
def processBuffer (s : RecState) (buf : List Int × List Int) : RecState :=
  let r := sampleLoop (List.zip buf.1 buf.2) s.initialSilence s.empty []
  { initialSilence := r.1
    empty := r.2.1
    written := if r.1 = false then s.written ++ r.2.2 else s.written }

/-- A whole recording session: `empty` starts `true` (src/main.rs:1119)
and `initial_silence` starts `true` (src/main.rs:1163); the callback runs
once per captured buffer. -/
def recordRun (session : List (List Int × List Int)) : RecState :=
  session.foldl processBuffer { initialSilence := true, empty := true, written := [] }

/- ------------------------------------------------------------------
   Player tick loop: Capture mode (src/main.rs:1512-1527) and Input
   replay mode (src/main.rs:1452-1508, frame advance 1578-1593).
   ------------------------------------------------------------------ -/

/-- State of a Capture-mode session inside the tick loop: the snapshot
frame list, the `previous_frame` comparison baseline and the
`edited_frame` index (all from src/main.rs:1367-1370). -/
structure CaptureState where
  frames : List Frame
  previous : Dials
  editedFrame : Nat
deriving DecidableEq

/-- Initial Capture-mode state: the session's snapshot is `SnapShot::new()`
(seed frame only), `previous_frame = [0; 6]`, `edited_frame = 0`. -/
def captureInit : CaptureState :=
  { frames := SnapShot.newFrames, previous := zeroDials, editedFrame := 0 }

/-- One tick of the Capture branch (src/main.rs:1512-1527) with the
catalog dial values `cat t` read under the settings lock at tick `t`: if
`SnapShot::edited previous (cat t)` holds, push `(cat t, t)`, then set
`previous_frame` to `snapshot.frames[edited_frame].0` (the push happened
first, but `edited_frame` still holds its pre-increment value) and
increment `edited_frame`.  The bottom-of-loop frame advance
(src/main.rs:1578-1590) is skipped because `capturing` is true. -/
def captureStep (cat : Nat → Dials) (t : Nat) (s : CaptureState) : CaptureState :=
  if SnapShot.edited s.previous (cat t) then
    let pushed := s.frames ++ [(cat t, (t : Int))]
    { frames := pushed
      previous := (pushed.getD s.editedFrame (zeroDials, 0)).1
      editedFrame := s.editedFrame + 1 }
  else s

/-- A Capture session of `n` ticks (the while loop runs with the tick
counter `frame` going `0, 1, ..., n - 1` before `elapsed` reaches the
clip duration). -/
def captureRun (cat : Nat → Dials) : Nat → CaptureState
  | 0 => captureInit
  | n + 1 => captureStep cat n (captureRun cat n)

/-- What happens after the tick loop ends by natural completion
(src/main.rs:1596-1606): the shared playing/finished cell is written
`true` unconditionally, and while capturing the snapshot is saved as-is
(no `frames.remove(0)` on this path). -/
structure SessionEnd where
  finished : Bool
  persisted : Option (List Frame)
deriving DecidableEq

/-- Natural completion of the tick loop (src/main.rs:1596-1606). -/
def naturalCompletion (capturing : Bool) (frames : List Frame) : SessionEnd :=
  { finished := true
    persisted := if capturing then some frames else none }

/-- The snapshot persisted by the `StopAudio` (and `LoadFile` /
`PlayAudio(Capture)`) exit paths while capturing
(src/main.rs:1385-1399): `snapshot.frames.remove(0)` strips the head,
then the remainder is saved. -/
def persistOnStop (frames : List Frame) : List Frame := frames.tail

/-- The snapshot save key (src/main.rs:1388, 1600):
`File::truncate(file, ".", 0)` applied to the loaded file path. -/
def snapshotKey (file : String) : String := File.truncate file '.' 0

/-- State of an Input-replay session: the `edited_frame` index, the shared
live-ControlVector cell (`snapshot_frame_values`), and — as the
observation the claims talk about — the log of `Tracker::write` calls
made on that cell, as `(tick, value)` pairs. -/
structure InputState where
  editedFrame : Nat
  cell : Dials
  writes : List (Nat × Dials)
deriving DecidableEq

/-- One tick of Input replay (src/main.rs:1452-1508 plus the frame
advance at 1578-1593, where `capturing` is false): if the next keyframe's
stored tick equals the current counter, publish its dial values to the
shared cell; at the bottom of the loop, advance `edited_frame` when the
indexed keyframe's tick equals the counter. -/
def inputStep (frames : List Frame) (t : Nat) (s : InputState) : InputState :=
  let s1 :=
    if s.editedFrame < frames.length ∧
        (t : Int) = (frames.getD s.editedFrame (zeroDials, 0)).2 then
      { s with cell := (frames.getD s.editedFrame (zeroDials, 0)).1
               writes := s.writes ++ [(t, (frames.getD s.editedFrame (zeroDials, 0)).1)] }
    else s
  let idx := if s.editedFrame < frames.length then s.editedFrame else s.editedFrame - 1
  if (t : Int) = (frames.getD idx (zeroDials, 0)).2 then
    { s1 with editedFrame := s1.editedFrame + 1 }
  else s1

/-- An Input-replay session of `n` ticks starting with the shared cell
holding `cell0`. -/
def inputRun (frames : List Frame) (cell0 : Dials) : Nat → InputState
  | 0 => { editedFrame := 0, cell := cell0, writes := [] }
  | n + 1 => inputStep frames n (inputRun frames cell0 n)

/- ------------------------------------------------------------------
   `Recording::rename` (src/main.rs:668-746).
   ------------------------------------------------------------------ -/

/-- Accumulator of the rename loop: the rebuilt recording list, the
`File::rename` filesystem operations performed (old name, new name), the
four validation-error flags and the `rename_failed` slot
(src/main.rs:674-681). -/
structure RenameAcc where
  list : List Recording
  ops : List (String × String)
  fallbackE : Bool
  emptyE : Bool
  existsE : Bool
  saveFileE : Bool
  renameFailed : Option Error
deriving DecidableEq

/-- Empty accumulator at loop entry. -/
def renameAccInit : RenameAcc :=
  { list := [], ops := [], fallbackE := false, emptyE := false
    existsE := false, saveFileE := false, renameFailed := none }

/-- The rename loop (src/main.rs:683-730), walking the old entries with
`i` indexing the proposed-name list (`new.row_data(i).unwrap()`; the
source panics when `new` is shorter than `old`, so the embedding is used
with equally long lists and `getD` never hits its default).  Each
validation failure pushes the unchanged entry and `break`s; a passing
entry calls `File::rename` — modelled by the outcome oracle `fs` — and
pushes the renamed entry, recording an I/O failure in `rename_failed`
without breaking. -/
def renameLoop (fs : String → String → Option Error) (old : List Recording)
    (new : List String) : List Recording → Nat → RenameAcc → RenameAcc
  | [], _, acc => acc
  | r :: rest, i, acc =>
    let n := new.getD i ""
    if n ≠ r.name then
      if containsSub n.toList fallbackMarker.toList then
        { acc with list := acc.list ++ [Recording.from r.name r.parse], fallbackE := true }
      else if n = "settings" then
        { acc with list := acc.list ++ [Recording.from r.name r.parse], saveFileE := true }
      else if n = "" then
        { acc with list := acc.list ++ [Recording.from r.name r.parse], emptyE := true }
      else if File.exists n old then
        { acc with list := acc.list ++ [Recording.from r.name r.parse], existsE := true }
      else
        renameLoop fs old new rest (i + 1)
          { acc with
            list := acc.list ++ [Recording.from n r.parse]
            ops := acc.ops ++ [(r.name, n)]
            renameFailed := match fs r.name n with
              | some e => some e
              | none => acc.renameFailed }
    else
      renameLoop fs old new rest (i + 1)
        { acc with list := acc.list ++ [Recording.from r.name r.parse] }

/-- `Recording::rename` (src/main.rs:668-746): run the loop over all old
entries, then turn the error flags into the result, with the source's
priority order (exists, empty, fallback, save-file, I/O failure). -/
def Recording.rename (fs : String → String → Option Error) (old : List Recording)
    (new : List String) : List Recording ⊕ List Recording × Error :=
  let acc := renameLoop fs old new old 0 renameAccInit
  if acc.existsE then Sum.inr (acc.list, Error.ExistsError)
  else if acc.emptyE then Sum.inr (acc.list, Error.EmptyError)
  else if acc.fallbackE then Sum.inr (acc.list, Error.FallbackError)
  else if acc.saveFileE then Sum.inr (acc.list, Error.SaveFileRenameError)
  else
    match acc.renameFailed with
    | some e => Sum.inr (acc.list, e)
    | none => Sum.inl acc.list

/-- The filesystem rename operations `Recording::rename` performs. -/
def renameOps (fs : String → String → Option Error) (old : List Recording)
    (new : List String) : List (String × String) :=
  (renameLoop fs old new old 0 renameAccInit).ops

/- ------------------------------------------------------------------
   `Settings::sync` catalog rebuild (src/main.rs:896-951).
   ------------------------------------------------------------------ -/

/-- Inner lookup loop of the `Settings::sync` rebuild
(src/main.rs:899-918) for one clip name: the first catalog entry with
that exact name is carried forward
(`Recording::from(name, old.parse())`, then `break`); when the scan
reaches the last index without a match (`recording == len - 1`), or the
catalog is empty (the outer `else`), a fresh zeroed `Recording::new` is
pushed. -/
def syncEntry (old : List Recording) (n : String) : Recording :=
  match old with
  | [] => Recording.new n
  | r :: rest =>
    if r.name = n then Recording.from n r.parse
    else
      match rest with
      | [] => Recording.new n
      | _ :: _ => syncEntry rest n

/-- The rebuilt recording catalog of `Settings::sync`
(src/main.rs:896-951): one entry per on-disk clip name, in the clip-name
order; the result replaces `self.recordings` entirely (line 950).  The
`if file_names.len() > 0` guard is the `map` of the empty list. -/
def syncRecordings (fileNames : List String) (old : List Recording) : List Recording :=
  fileNames.map (syncEntry old)

/- ------------------------------------------------------------------
   `Recording::shuffle` (src/main.rs:748-765).
   ------------------------------------------------------------------ -/

/-- The shuffle loop (src/main.rs:758-763): while numbers remain, draw a
random index into the remaining list, emit the value there and remove it.
`random_range(0..len)` yields an arbitrary value below `len`; the draw at
step `k` is modelled as `r k % len`, so every execution of the source
corresponds to some `r` and conversely.  (The source casts the emitted
index to `i32`; the embedding keeps `Nat`.) -/
def shuffleGo (r : Nat → Nat) : List Nat → Nat → List Nat
  | [], _ => []
  | a :: rest, step =>
    let avail := a :: rest
    let idx := r step % avail.length
    avail.getD idx 0 :: shuffleGo r (avail.eraseIdx idx) (step + 1)
  termination_by avail _ => avail.length
  decreasing_by
    have h : r step % (a :: rest).length < (a :: rest).length :=
      Nat.mod_lt _ (by simp)
    simp only [List.length_eraseIdx, h, if_true]
    omega

/-- `Recording::shuffle` (src/main.rs:748-765): the available list starts
as `0, 1, ..., length - 1`. -/
def Recording.shuffle (r : Nat → Nat) (length : Nat) : List Nat :=
  shuffleGo r (List.range length) 0

/- ------------------------------------------------------------------
   Observation helpers used only in theorem statements.
   ------------------------------------------------------------------ -/

/-- Interleave a list of stereo sample pairs, left channel first — the
shape of the data `record_callback` hands to the writer. -/
def interleavePairs : List (Int × Int) → List Int
  | [] => []
  | p :: rest => p.1 :: p.2 :: interleavePairs rest

/-- Is either channel of a sample pair non-zero? -/
def nonZeroPair (p : Int × Int) : Bool := p.1 != 0 || p.2 != 0

/-- All sample pairs a recording session considers, in order: per buffer,
the first `min(len1, len2)` pairs (the loop bound of the callback). -/
def flatSamples : List (List Int × List Int) → List (Int × Int)
  | [] => []
  | b :: rest => List.zip b.1 b.2 ++ flatSamples rest

/-- Modelled from the spec's silence-trimming description, amended to the
code's behaviour: drop pairs up to and including the first non-zero pair,
then interleave the remainder. -/
def trimmedTail : List (Int × Int) → List Int
  | [] => []
  | p :: rest => if nonZeroPair p then interleavePairs rest else trimmedTail rest

/-- The dial values of the second-to-last frame (the last frame for a
one-frame list): the value `previous_frame` actually holds after the
Capture branch's post-push assignment. -/
def secondLastDials (fs : List Frame) : Dials :=
  (fs.getD (fs.length - 2) (zeroDials, 0)).1

/-- The validation outcome the rename loop (src/main.rs:685-712) computes
for one entry, in the source's check order: unchanged names pass, then
fallback marker, reserved settings name, empty name, and existing name
each reject with their specific error. -/
def entryError (old : List Recording) (r : Recording) (n : String) : Option Error :=
  if n ≠ r.name then
    if containsSub n.toList fallbackMarker.toList then some Error.FallbackError
    else if n = "settings" then some Error.SaveFileRenameError
    else if n = "" then some Error.EmptyError
    else if File.exists n old then some Error.ExistsError
    else none
  else none

/-- Modelled from the spec's reconciliation description: carry the first
matching catalog entry's controls forward, else create a zeroed entry. -/
def specRebuildEntry (old : List Recording) (n : String) : Recording :=
  match old.find? (fun r => r.name = n) with
  | some r => Recording.from n r.parse
  | none => Recording.new n

/-- A constant non-zero dial vector used by the concrete Capture runs. -/
def constV : Dials := [1, 0, 0, 0, 0, 0]

/-- The dial vector `[3, 0, 0, 0, 0, 0]` of the round-trip scenario. -/
def vDials : Dials := [3, 0, 0, 0, 0, 0]

/-- The catalog dial schedule of the round-trip scenario: zeros from tick
0, `[3,0,0,0,0,0]` from tick 50, zeros again from tick 120. -/
def c4cat (t : Nat) : Dials :=
  if t < 50 then zeroDials else if t < 120 then vDials else zeroDials

/-- The snapshot persisted when that 150-tick Capture session ends by
natural completion (src/main.rs:1596-1606: saved without seed removal). -/
def c4persisted : List Frame := (captureRun c4cat 150).frames

/-- The value the shared live-ControlVector cell holds after replay tick
`t` of the persisted round-trip snapshot (cell starts zeroed). -/
def c4cellAt (t : Nat) : Dials := (inputRun c4persisted zeroDials (t + 1)).cell

/-- The keyframe list the round-trip Capture session persists: seed frame
plus each of the two changes captured twice (C1's baseline lag). -/
def c4frames : List Frame :=
  [(zeroDials, 0), (vDials, 50), (vDials, 51), (zeroDials, 120), (zeroDials, 121)]

/-- Replay state after tick 0 (seed published, frame index advanced). -/
def c4S1 : InputState := { editedFrame := 1, cell := zeroDials, writes := [(0, zeroDials)] }

/-- Replay state after tick 51 (both copies of the change published). -/
def c4S3 : InputState :=
  { editedFrame := 3, cell := vDials
    writes := [(0, zeroDials), (50, vDials), (51, vDials)] }

/-- Replay state after tick 121 (all five keyframes published). -/
def c4S5 : InputState :=
  { editedFrame := 5, cell := zeroDials
    writes := [(0, zeroDials), (50, vDials), (51, vDials), (120, zeroDials), (121, zeroDials)] }

/-- Capture state after tick 51 of the round-trip session. -/
def c4C2 : CaptureState :=
  { frames := [(zeroDials, 0), (vDials, 50), (vDials, 51)], previous := vDials, editedFrame := 2 }

/-- Capture state after tick 121 of the round-trip session (final). -/
def c4C4 : CaptureState :=
  { frames := c4frames, previous := zeroDials, editedFrame := 4 }

/-- The `rename_failed` slot after processing a run of entries that pass
validation: each changed entry calls the filesystem oracle, and a failure
overwrites the slot. -/
def renameFailFold (fs : String → String → Option Error)
    (l : List (Recording × String)) (init : Option Error) : Option Error :=
  l.foldl
    (fun f p =>
      if p.2 ≠ p.1.name then
        match fs p.1.name p.2 with
        | some e2 => some e2
        | none => f
      else f) init

/- ==================================================================
   Theorems.
   ================================================================== -/

/-- When the candidate name occurs among the taken names, the name loop
returns the fallback name whatever the accumulator holds. -/
theorem nameLoop_of_mem (potential fb : String) :
    ∀ (l : List String) (acc : String), potential ∈ l →
      nameLoop potential fb l acc = fb := by
  intro l
  induction l with
  | nil => intro acc h; cases h
  | cons t rest ih =>
    intro acc h
    by_cases hpt : potential = t
    · simp [nameLoop, hpt]
    · have hmem : potential ∈ rest := by
        rcases List.mem_cons.mp h with h1 | h1
        · exact absurd h1 hpt
        · exact h1
      simp [nameLoop, hpt, ih _ hmem]

/-- When the candidate name occurs nowhere in a non-empty taken list, the
name loop returns the candidate with the `.wav` extension. -/
theorem nameLoop_of_not_mem (potential fb : String) :
    ∀ (l : List String) (acc : String), potential ∉ l → l ≠ [] →
      nameLoop potential fb l acc = potential ++ ".wav" := by
  intro l
  induction l with
  | nil => intro acc _ hne; exact absurd rfl hne
  | cons t rest ih =>
    intro acc h _
    have hpt : potential ≠ t := fun he => h (he ▸ List.mem_cons_self t rest)
    have hmem : potential ∉ rest := fun hm => h (List.mem_cons_of_mem t hm)
    have hstep : nameLoop potential fb (t :: rest) acc =
        if potential ≠ t then nameLoop potential fb rest (potential ++ ".wav") else fb := rfl
    rw [hstep, if_pos hpt]
    match rest with
    | [] => rfl
    | t2 :: rest2 => exact ih _ hmem (by simp)

/-- C5: with N existing clips the candidate name is `Recording {N+1}`
(kept when it is not taken — in particular `{Recording 1, Recording 2}`
yields `Recording 3`); a taken candidate falls back to
`Default taken... {k+1}` with k the number of fallback-marked clips; zero
existing clips yield the fixed name `Recording 1`. -/
theorem c5_name_generation (taken : List String) :
    generateName [] = "Recording 1.wav" ∧
    (taken ≠ [] →
      "Recording " ++ toString (taken.length + 1) ∉ taken →
      generateName taken = "Recording " ++ toString (taken.length + 1) ++ ".wav") ∧
    ("Recording " ++ toString (taken.length + 1) ∈ taken →
      generateName taken =
        "Default taken... " ++ toString (countFallbacks taken + 1) ++ ".wav") ∧
    generateName ["Recording 1", "Recording 2"] = "Recording 3.wav" := by
  refine ⟨rfl, ?_, ?_, by decide⟩
  · intro hne hnm
    have hlen : taken.length > 0 := List.length_pos.mpr hne
    simp only [generateName, if_pos hlen]
    exact nameLoop_of_not_mem _ _ taken "" hnm hne
  · intro hm
    have hne : taken ≠ [] := by
      intro he
      rw [he] at hm
      cases hm
    have hlen : taken.length > 0 := List.length_pos.mpr hne
    simp only [generateName, if_pos hlen]
    exact nameLoop_of_mem _ _ taken "" hm

/-- Witness for C5 at concrete inputs: `{Recording 2, Recording 3}` has a
taken candidate `Recording 3`, so the fallback name is generated. -/
theorem c5_name_generation_witness :
    ("Recording " ++ toString ((["Recording 2", "Recording 3"] : List String).length + 1) ∈
      (["Recording 2", "Recording 3"] : List String)) ∧
    generateName ["Recording 2", "Recording 3"] =
      "Default taken... " ++ toString (countFallbacks ["Recording 2", "Recording 3"] + 1) ++ ".wav" :=
  ⟨by decide, (c5_name_generation ["Recording 2", "Recording 3"]).2.2.1 (by decide)⟩

/-- C6: the comparator decides by comparing the two accumulated bias
totals (text-vs-number short-circuits with the maximal bias against the
text side; equal totals give Equal), sorts the `Recording` example into
natural order, and compares case-insensitively in the `[b, B2, a10]`
example (where the stable sort leaves the list unchanged because both
`b`/`B2` and `B2`/`a10` have tied totals). -/
theorem c6_natural_order :
    sortByCmp cmpNames ["Recording 2", "Recording 10", "Recording 1"] =
      ["Recording 1", "Recording 2", "Recording 10"] ∧
    sortByCmp cmpNames ["b", "B2", "a10"] = ["b", "B2", "a10"] ∧
    cmpNames "b" "B2" = Ordering.eq ∧
    biasTotals "B2" "a10" = (1, 1) ∧
    cmpNames "B2" "a10" = Ordering.eq ∧
    cmpNames "a" "1" = Ordering.gt ∧
    cmpNames "1" "a" = Ordering.lt ∧
    (∀ s1 s2 : String,
      cmpNames s1 s2 = Ordering.eq ↔ (biasTotals s1 s2).1 = (biasTotals s1 s2).2) := by
  refine ⟨by decide, by decide, by decide, by decide, by decide, by decide, by decide, ?_⟩
  intro s1 s2
  show (if (biasTotals s1 s2).1 > (biasTotals s1 s2).2 then Ordering.gt
    else if (biasTotals s1 s2).1 < (biasTotals s1 s2).2 then Ordering.lt
    else Ordering.eq) = Ordering.eq ↔ (biasTotals s1 s2).1 = (biasTotals s1 s2).2
  split_ifs with h1 h2
  · exact ⟨fun h => h.elim, fun h => absurd h (by omega)⟩
  · exact ⟨fun h => h.elim, fun h => absurd h (by omega)⟩
  · exact ⟨fun _ => by omega, fun _ => rfl⟩

/-- Interleaving distributes over append. -/
theorem interleavePairs_append (l1 l2 : List (Int × Int)) :
    interleavePairs (l1 ++ l2) = interleavePairs l1 ++ interleavePairs l2 := by
  induction l1 with
  | nil => rfl
  | cons p rest ih => simp [interleavePairs, ih]

/-- A list with no non-zero pair trims to nothing. -/
theorem trimmedTail_of_allZero (l : List (Int × Int)) (h : l.any nonZeroPair = false) :
    trimmedTail l = [] := by
  induction l with
  | nil => rfl
  | cons p rest ih =>
    simp only [List.any_cons, Bool.or_eq_false_iff] at h
    simp [trimmedTail, h.1, ih h.2]

/-- Trimming past a block that contains a non-zero pair: the whole right
block is interleaved. -/
theorem trimmedTail_append_left (l1 l2 : List (Int × Int))
    (h : l1.any nonZeroPair = true) :
    trimmedTail (l1 ++ l2) = trimmedTail l1 ++ interleavePairs l2 := by
  induction l1 with
  | nil => simp at h
  | cons p rest ih =>
    by_cases hp : nonZeroPair p = true
    · simp [trimmedTail, hp, interleavePairs_append]
    · have hrest : rest.any nonZeroPair = true := by
        simp only [List.any_cons] at h
        simp only [Bool.not_eq_true] at hp
        simpa [hp] using h
      simp [trimmedTail, hp, ih hrest]

/-- Trimming past an all-zero block skips it entirely. -/
theorem trimmedTail_append_right (l1 l2 : List (Int × Int))
    (h : l1.any nonZeroPair = false) :
    trimmedTail (l1 ++ l2) = trimmedTail l2 := by
  induction l1 with
  | nil => rfl
  | cons p rest ih =>
    simp only [List.any_cons, Bool.or_eq_false_iff] at h
    simp [trimmedTail, h.1, ih h.2]

/-- Once `initial_silence` is broken, the sample loop interleaves every
remaining pair. -/
theorem sampleLoop_broken (l : List (Int × Int)) :
    ∀ (emp : Bool) (inter : List Int),
      sampleLoop l false emp inter = (false, emp, inter ++ interleavePairs l) := by
  induction l with
  | nil => intro emp inter; simp [sampleLoop, interleavePairs]
  | cons p rest ih =>
    intro emp inter
    cases p with
    | mk a b => simp [sampleLoop, interleavePairs, ih, List.append_assoc]

/-- While `initial_silence` holds, the sample loop scans for the first
non-zero pair, flips both flags there, skips that pair and interleaves
the rest. -/
theorem sampleLoop_silent (l : List (Int × Int)) :
    ∀ (inter : List Int),
      sampleLoop l true true inter =
        (!(l.any nonZeroPair), !(l.any nonZeroPair), inter ++ trimmedTail l) := by
  induction l with
  | nil => intro inter; simp [sampleLoop, trimmedTail]
  | cons p rest ih =>
    intro inter
    cases p with
    | mk a b =>
      by_cases hz : a ≠ 0 ∨ b ≠ 0
      · have hp : nonZeroPair (a, b) = true := by
          simp [nonZeroPair]
          omega
        simp [sampleLoop, hz, sampleLoop_broken, trimmedTail, hp]
      · have hp : nonZeroPair (a, b) = false := by
          simp [nonZeroPair]
          omega
        simp [sampleLoop, hz, ih, trimmedTail, hp]

/-- Once silence is broken, a whole session suffix appends the interleave
of all its considered samples. -/
theorem recordFold_broken (session : List (List Int × List Int)) :
    ∀ (emp : Bool) (w : List Int),
      session.foldl processBuffer { initialSilence := false, empty := emp, written := w } =
        { initialSilence := false, empty := emp,
          written := w ++ interleavePairs (flatSamples session) } := by
  induction session with
  | nil => intro emp w; simp [flatSamples, interleavePairs]
  | cons b rest ih =>
    intro emp w
    have hb : processBuffer { initialSilence := false, empty := emp, written := w } b =
        { initialSilence := false, empty := emp,
          written := w ++ interleavePairs (List.zip b.1 b.2) } := by
      simp [processBuffer, sampleLoop_broken]
    simp [List.foldl_cons, hb, ih, flatSamples, interleavePairs_append, List.append_assoc]

/-- From the silent state, a whole session scans its flattened samples for
the first non-zero pair and writes the interleave of everything after it;
both flags end up recording whether any non-zero pair occurred. -/
theorem recordFold_silent (session : List (List Int × List Int)) :
    ∀ (w : List Int),
      session.foldl processBuffer { initialSilence := true, empty := true, written := w } =
        { initialSilence := !((flatSamples session).any nonZeroPair),
          empty := !((flatSamples session).any nonZeroPair),
          written := w ++ trimmedTail (flatSamples session) } := by
  induction session with
  | nil => intro w; simp [flatSamples, trimmedTail]
  | cons b rest ih =>
    intro w
    by_cases hb : (List.zip b.1 b.2).any nonZeroPair = true
    · have hpb : processBuffer { initialSilence := true, empty := true, written := w } b =
          { initialSilence := false, empty := false,
            written := w ++ trimmedTail (List.zip b.1 b.2) } := by
        simp [processBuffer, sampleLoop_silent, hb]
      have hcons : flatSamples (b :: rest) = List.zip b.1 b.2 ++ flatSamples rest := rfl
      have hany : (flatSamples (b :: rest)).any nonZeroPair = true := by
        rw [hcons, List.any_append, hb]
        rfl
      have htrim : trimmedTail (flatSamples (b :: rest)) =
          trimmedTail (List.zip b.1 b.2) ++ interleavePairs (flatSamples rest) := by
        rw [hcons]
        exact trimmedTail_append_left _ _ hb
      rw [List.foldl_cons, hpb, recordFold_broken, hany, htrim]
      simp [List.append_assoc]
    · have hb' : (List.zip b.1 b.2).any nonZeroPair = false := by
        simpa using hb
      have hpb : processBuffer { initialSilence := true, empty := true, written := w } b =
          { initialSilence := true, empty := true, written := w } := by
        simp [processBuffer, sampleLoop_silent, hb', trimmedTail_of_allZero _ hb']
      have hcons : flatSamples (b :: rest) = List.zip b.1 b.2 ++ flatSamples rest := rfl
      have hflat : (flatSamples (b :: rest)).any nonZeroPair =
          (flatSamples rest).any nonZeroPair := by
        rw [hcons, List.any_append, hb']
        rfl
      have htrim : trimmedTail (flatSamples (b :: rest)) =
          trimmedTail (flatSamples rest) := by
        rw [hcons]
        exact trimmedTail_append_right _ _ hb'
      rw [List.foldl_cons, hpb, ih, hflat, htrim]

/-- Trimming in terms of the index of the first non-zero pair. -/
theorem trimmedTail_eq_drop (l : List (Int × Int)) :
    ∀ T, l.findIdx? nonZeroPair = some T →
      trimmedTail l = interleavePairs (l.drop (T + 1)) := by
  induction l with
  | nil => intro T h; simp [List.findIdx?] at h
  | cons p rest ih =>
    intro T h
    by_cases hp : nonZeroPair p = true
    · simp [List.findIdx?_cons, hp] at h
      subst h
      simp [trimmedTail, hp]
    · have hp' : nonZeroPair p = false := by simpa using hp
      simp [List.findIdx?_cons, hp'] at h
      rcases h with ⟨T', hT', rfl⟩
      simp [trimmedTail, hp', ih T' hT', List.drop_succ_cons]

/-- C3 counterexample: for the single buffer `([0,1,2],[0,0,0])` the first
non-zero position is T = 1, yet the written data is `[2, 0]` — it starts
with the samples at position T + 1, not with the sample at T as the claim
states (the transition `continue` consumes the first non-zero sample). -/
theorem c3_counterexample :
    recordRun [([0, 1, 2], [0, 0, 0])] =
      { initialSilence := false, empty := false, written := [2, 0] } ∧
    (flatSamples [([0, 1, 2], [0, 0, 0])]).findIdx? nonZeroPair = some 1 ∧
    ¬ (recordRun [([0, 1, 2], [0, 0, 0])]).written =
        interleavePairs ((flatSamples [([0, 1, 2], [0, 0, 0])]).drop 1) := by
  refine ⟨by decide, by decide, by decide⟩

/-- C3 (amended): for every session, samples strictly before the first
non-zero position T are never written and neither is the sample at T
itself — the written data is exactly the interleave of the samples after
T — and the shared empty flag ends the session true iff no non-zero
sample ever occurred. -/
theorem c3_silence_trimming (session : List (List Int × List Int)) :
    ((recordRun session).empty = true ↔
      ∀ p ∈ flatSamples session, p.1 = 0 ∧ p.2 = 0) ∧
    (recordRun session).written = trimmedTail (flatSamples session) ∧
    (∀ T, (flatSamples session).findIdx? nonZeroPair = some T →
      (recordRun session).written =
        interleavePairs ((flatSamples session).drop (T + 1))) := by
  have hrun : recordRun session =
      { initialSilence := !((flatSamples session).any nonZeroPair),
        empty := !((flatSamples session).any nonZeroPair),
        written := trimmedTail (flatSamples session) } := by
    have h := recordFold_silent session []
    simpa [recordRun] using h
  refine ⟨?_, ?_, ?_⟩
  · rw [hrun]
    simp only [Bool.not_eq_true']
    constructor
    · intro h p hp
      have h2 := List.any_eq_false.mp h p hp
      simp [nonZeroPair] at h2
      exact h2
    · intro h
      refine List.any_eq_false.mpr ?_
      intro p hp
      simp [nonZeroPair]
      exact h p hp
  · rw [hrun]
  · intro T hT
    rw [hrun]
    exact trimmedTail_eq_drop _ T hT

/-- Witness for C3 at a concrete session: silence for two samples, a
non-zero pair at position 2, data written from position 3 on. -/
theorem c3_silence_trimming_witness :
    (flatSamples [([0, 0], [0, 0]), ([0, 5], [0, 6]), ([7], [8])]).findIdx? nonZeroPair =
      some 3 ∧
    (recordRun [([0, 0], [0, 0]), ([0, 5], [0, 6]), ([7], [8])]).written =
      interleavePairs
        ((flatSamples [([0, 0], [0, 0]), ([0, 5], [0, 6]), ([7], [8])]).drop 4) :=
  ⟨by decide,
    (c3_silence_trimming [([0, 0], [0, 0]), ([0, 5], [0, 6]), ([7], [8])]).2.2 3 (by decide)⟩

/-- Invariant of the Capture loop: the frame list is never empty,
`edited_frame + 1` equals the list length, and `previous_frame` holds the
dial values of the second-to-last frame (the seed for a fresh
snapshot). -/
theorem captureRun_invariant (cat : Nat → Dials) :
    ∀ n, (captureRun cat n).frames ≠ [] ∧
      (captureRun cat n).editedFrame + 1 = (captureRun cat n).frames.length ∧
      (captureRun cat n).previous = secondLastDials (captureRun cat n).frames := by
  intro n
  induction n with
  | zero => refine ⟨by simp [captureRun, captureInit, SnapShot.newFrames], rfl, rfl⟩
  | succ n ih =>
    obtain ⟨hne, hlen, hprev⟩ := ih
    have hflen : (captureRun cat n).frames.length > 0 := List.length_pos.mpr hne
    show (captureStep cat n (captureRun cat n)).frames ≠ [] ∧
      (captureStep cat n (captureRun cat n)).editedFrame + 1 =
        (captureStep cat n (captureRun cat n)).frames.length ∧
      (captureStep cat n (captureRun cat n)).previous =
        secondLastDials (captureStep cat n (captureRun cat n)).frames
    set s := captureRun cat n with hs
    by_cases hed : SnapShot.edited s.previous (cat n) = true
    · have hstep : captureStep cat n s =
          { frames := s.frames ++ [(cat n, (n : Int))]
            previous := ((s.frames ++ [(cat n, (n : Int))]).getD s.editedFrame (zeroDials, 0)).1
            editedFrame := s.editedFrame + 1 } := by
        rw [captureStep, if_pos hed]
      rw [hstep]
      have hidx : s.editedFrame < s.frames.length := by omega
      refine ⟨by simp, ?_, ?_⟩
      · show s.editedFrame + 1 + 1 = (s.frames ++ [(cat n, (n : Int))]).length
        have h3 : (s.frames ++ [(cat n, (n : Int))]).length = s.frames.length + 1 := by simp
        omega
      · show ((s.frames ++ [(cat n, (n : Int))]).getD s.editedFrame (zeroDials, 0)).1 =
          secondLastDials (s.frames ++ [(cat n, (n : Int))])
        rw [secondLastDials]
        have hlen2 : (s.frames ++ [(cat n, (n : Int))]).length = s.frames.length + 1 := by simp
        rw [hlen2]
        have hidx2 : s.frames.length + 1 - 2 = s.editedFrame := by omega
        rw [hidx2]
    · have hstep : captureStep cat n s = s := by
        rw [captureStep, if_neg hed]
      rw [hstep]
      exact ⟨hne, hlen, hprev⟩

/-- C1 counterexample: with the catalog held constant at `[1,0,0,0,0,0]`
from tick 0, the three-tick Capture run appends keyframes at ticks 0 and
1 — two consecutive keyframes with equal ControlVectors — even though
the vector never changed after tick 0, refuting both the stated iff (at
tick 1 the vector equals the most recently captured value) and the
no-duplicates consequence. -/
theorem c1_counterexample :
    (captureRun (fun _ => constV) 3).frames =
      [(zeroDials, 0), (constV, 0), (constV, 1)] ∧
    ((captureRun (fun _ => constV) 3).frames.getD 1 (zeroDials, 0)).1 =
      ((captureRun (fun _ => constV) 3).frames.getD 2 (zeroDials, 0)).1 := by
  refine ⟨by decide, by decide⟩

/-- C1 (amended): at every tick the Capture branch appends
`(value, tick_counter)` iff the current catalog vector differs from
`previous_frame`, and after each append `previous_frame` holds the dial
values of the second-to-last frame of the list — the keyframe captured
before the one just appended, not the value just captured — so a
sustained change is appended on two consecutive ticks. -/
theorem c1_capture_baseline (cat : Nat → Dials) (n : Nat) :
    (captureRun cat n).previous = secondLastDials (captureRun cat n).frames ∧
    (captureRun cat (n + 1)).frames =
      (if SnapShot.edited (secondLastDials (captureRun cat n).frames) (cat n) = true
       then (captureRun cat n).frames ++ [(cat n, (n : Int))]
       else (captureRun cat n).frames) := by
  obtain ⟨hne, hlen, hprev⟩ := captureRun_invariant cat n
  refine ⟨hprev, ?_⟩
  show (captureStep cat n (captureRun cat n)).frames = _
  rw [captureStep, ← hprev]
  by_cases hed : SnapShot.edited (captureRun cat n).previous (cat n) = true
  · rw [if_pos hed, if_pos hed]
  · rw [if_neg hed, if_neg hed]

/-- C2 counterexample: a two-tick Capture session with the constant
non-zero catalog ends by natural completion with the seed frame
`([0,...], 0)` still at the head of the persisted keyframe list — the
synthetic seed frame is not removed on this path, contrary to the
claim. -/
theorem c2_counterexample :
    naturalCompletion true (captureRun (fun _ => constV) 2).frames =
      { finished := true,
        persisted := some [(zeroDials, 0), (constV, 0), (constV, 1)] } ∧
    (naturalCompletion true (captureRun (fun _ => constV) 2).frames).persisted ≠
      some (persistOnStop (captureRun (fun _ => constV) 2).frames) := by
  refine ⟨by decide, by decide⟩

/-- The head of a Capture run's frame list is always the synthetic seed
frame: appends only ever extend the list at the back. -/
theorem captureRun_head (cat : Nat → Dials) :
    ∀ n, (captureRun cat n).frames.head? = some (zeroDials, 0) := by
  intro n
  induction n with
  | zero => rfl
  | succ n ih =>
    show (captureStep cat n (captureRun cat n)).frames.head? = _
    rw [captureStep]
    by_cases hed : SnapShot.edited (captureRun cat n).previous (cat n) = true
    · rw [if_pos hed]
      show ((captureRun cat n).frames ++ [(cat n, (n : Int))]).head? = _
      rw [List.head?_append_of_ne_nil]
      · exact ih
      · exact (captureRun_invariant cat n).1
    · rw [if_neg hed]
      exact ih

/-- C2 (amended): on natural completion of the tick loop the shared
"playing finished" flag is set regardless of whether the session was
capturing, and while capturing the keyframe list is persisted under the
clip's base name WITHOUT first removing the synthetic seed frame
`([0,...], 0)` (which still heads the list); the seed frame is stripped
only by the StopAudio / LoadFile / re-Capture exit paths. -/
theorem c2_natural_completion (capturing : Bool) (frames : List Frame)
    (cat : Nat → Dials) (n : Nat) :
    (naturalCompletion capturing frames).finished = true ∧
    (naturalCompletion true (captureRun cat n).frames).persisted =
      some ((captureRun cat n).frames) ∧
    (captureRun cat n).frames.head? = some (zeroDials, 0) ∧
    persistOnStop ((captureRun cat n).frames) = ((captureRun cat n).frames).tail ∧
    snapshotKey "Recording 1.wav" = "Recording 1" := by
  exact ⟨rfl, rfl, captureRun_head cat n, rfl, by decide⟩

/-- A state that is a fixpoint of every Capture tick in `[a, b)` persists
from tick `a` through tick `b`. -/
theorem captureRun_hold (cat : Nat → Dials) (a b : Nat) (S : CaptureState)
    (ha : captureRun cat a = S)
    (hstep : ∀ t, a ≤ t → t < b → captureStep cat t S = S) :
    ∀ t, a ≤ t → t ≤ b → captureRun cat t = S := by
  intro t
  induction t with
  | zero =>
    intro h1 _
    have h0 : a = 0 := by omega
    rw [← h0]
    exact ha
  | succ t ih =>
    intro h1 h2
    by_cases hat : a ≤ t
    · have hr : captureRun cat t = S := ih hat (by omega)
      show captureStep cat t (captureRun cat t) = S
      rw [hr]
      exact hstep t hat (by omega)
    · have ha1 : a = t + 1 := by omega
      rw [← ha1]
      exact ha

/-- A state that is a fixpoint of every replay tick in `[a, b)` persists
from tick `a` through tick `b`. -/
theorem inputRun_hold (frames : List Frame) (cell0 : Dials) (a b : Nat) (S : InputState)
    (ha : inputRun frames cell0 a = S)
    (hstep : ∀ t, a ≤ t → t < b → inputStep frames t S = S) :
    ∀ t, a ≤ t → t ≤ b → inputRun frames cell0 t = S := by
  intro t
  induction t with
  | zero =>
    intro h1 _
    have h0 : a = 0 := by omega
    rw [← h0]
    exact ha
  | succ t ih =>
    intro h1 h2
    by_cases hat : a ≤ t
    · have hr : inputRun frames cell0 t = S := ih hat (by omega)
      show inputStep frames t (inputRun frames cell0 t) = S
      rw [hr]
      exact hstep t hat (by omega)
    · have ha1 : a = t + 1 := by omega
      rw [← ha1]
      exact ha

/-- The 150-tick round-trip Capture session, computed segment by segment:
nothing happens before tick 50, the change to `[3,0,...]` is captured at
ticks 50 and 51, the change back at ticks 120 and 121. -/
theorem c4captureRun_eq : captureRun c4cat 150 = c4C4 := by
  have hold1 : ∀ t, 0 ≤ t → t ≤ 50 → captureRun c4cat t = captureInit := by
    refine captureRun_hold c4cat 0 50 captureInit rfl ?_
    intro t _ h2
    have hcat : c4cat t = zeroDials := by
      unfold c4cat
      rw [if_pos h2]
    unfold captureStep
    rw [hcat]
    rw [if_neg (by decide)]
  have h51 : captureRun c4cat 51 =
      { frames := [(zeroDials, 0), (vDials, 50)], previous := zeroDials, editedFrame := 1 } := by
    show captureStep c4cat 50 (captureRun c4cat 50) = _
    rw [hold1 50 (by omega) (by omega)]
    decide
  have h52 : captureRun c4cat 52 = c4C2 := by
    show captureStep c4cat 51 (captureRun c4cat 51) = _
    rw [h51]
    decide
  have hold2 : ∀ t, 52 ≤ t → t ≤ 120 → captureRun c4cat t = c4C2 := by
    refine captureRun_hold c4cat 52 120 c4C2 h52 ?_
    intro t h1 h2
    have hcat : c4cat t = vDials := by
      unfold c4cat
      rw [if_neg (by omega), if_pos h2]
    unfold captureStep
    rw [hcat]
    rw [if_neg (by decide)]
  have h121 : captureRun c4cat 121 =
      { frames := [(zeroDials, 0), (vDials, 50), (vDials, 51), (zeroDials, 120)]
        previous := vDials, editedFrame := 3 } := by
    show captureStep c4cat 120 (captureRun c4cat 120) = _
    rw [hold2 120 (by omega) (by omega)]
    decide
  have h122 : captureRun c4cat 122 = c4C4 := by
    show captureStep c4cat 121 (captureRun c4cat 121) = _
    rw [h121]
    decide
  have hold3 : ∀ t, 122 ≤ t → t ≤ 150 → captureRun c4cat t = c4C4 := by
    refine captureRun_hold c4cat 122 150 c4C4 h122 ?_
    intro t h1 _
    have hcat : c4cat t = zeroDials := by
      unfold c4cat
      rw [if_neg (by omega), if_neg (by omega)]
    unfold captureStep
    rw [hcat]
    rw [if_neg (by decide)]
  exact hold3 150 (by omega) (by omega)

/-- The persisted round-trip snapshot, concretely. -/
theorem c4persisted_eq : c4persisted = c4frames := by
  show (captureRun c4cat 150).frames = c4frames
  rw [c4captureRun_eq]
  rfl

/-- The 150-tick Input replay of the persisted round-trip snapshot,
computed segment by segment. -/
theorem c4replay_eq : inputRun c4persisted zeroDials 150 = c4S5 := by
  rw [c4persisted_eq]
  have h1 : inputRun c4frames zeroDials 1 = c4S1 := by decide
  have hold1 : ∀ t, 1 ≤ t → t ≤ 50 → inputRun c4frames zeroDials t = c4S1 := by
    refine inputRun_hold c4frames zeroDials 1 50 c4S1 h1 ?_
    intro t h1t h2
    have hne : (t : Int) ≠ 50 := by omega
    simp [inputStep, c4S1, c4frames, hne]
  have h51 : inputRun c4frames zeroDials 51 =
      { editedFrame := 2, cell := vDials, writes := [(0, zeroDials), (50, vDials)] } := by
    show inputStep c4frames 50 (inputRun c4frames zeroDials 50) = _
    rw [hold1 50 (by omega) (by omega)]
    decide
  have h52 : inputRun c4frames zeroDials 52 = c4S3 := by
    show inputStep c4frames 51 (inputRun c4frames zeroDials 51) = _
    rw [h51]
    decide
  have hold2 : ∀ t, 52 ≤ t → t ≤ 120 → inputRun c4frames zeroDials t = c4S3 := by
    refine inputRun_hold c4frames zeroDials 52 120 c4S3 h52 ?_
    intro t h1t h2
    have hne : (t : Int) ≠ 120 := by omega
    simp [inputStep, c4S3, c4frames, hne]
  have h121 : inputRun c4frames zeroDials 121 =
      { editedFrame := 4, cell := zeroDials
        writes := [(0, zeroDials), (50, vDials), (51, vDials), (120, zeroDials)] } := by
    show inputStep c4frames 120 (inputRun c4frames zeroDials 120) = _
    rw [hold2 120 (by omega) (by omega)]
    decide
  have h122 : inputRun c4frames zeroDials 122 = c4S5 := by
    show inputStep c4frames 121 (inputRun c4frames zeroDials 121) = _
    rw [h121]
    decide
  have hold3 : ∀ t, 122 ≤ t → t ≤ 150 → inputRun c4frames zeroDials t = c4S5 := by
    refine inputRun_hold c4frames zeroDials 122 150 c4S5 h122 ?_
    intro t h1t _
    have hne : (t : Int) ≠ 121 := by omega
    simp [inputStep, c4S5, c4frames, hne]
  exact hold3 150 (by omega) (by omega)

/-- The value of the shared live-ControlVector cell after each replay
tick: zeros before tick 50, `[3,0,...]` from tick 50 to 119, zeros from
tick 120 on — the cell changes value only at ticks 50 and 120. -/
theorem c4cell_trajectory :
    ∀ t, t ≤ 149 → c4cellAt t =
      (if t < 50 then zeroDials else if t < 120 then vDials else zeroDials) := by
  have h1 : inputRun c4frames zeroDials 1 = c4S1 := by decide
  have hold1 : ∀ t, 1 ≤ t → t ≤ 50 → inputRun c4frames zeroDials t = c4S1 := by
    refine inputRun_hold c4frames zeroDials 1 50 c4S1 h1 ?_
    intro t h1t h2
    have hne : (t : Int) ≠ 50 := by omega
    simp [inputStep, c4S1, c4frames, hne]
  have h51 : inputRun c4frames zeroDials 51 =
      { editedFrame := 2, cell := vDials, writes := [(0, zeroDials), (50, vDials)] } := by
    show inputStep c4frames 50 (inputRun c4frames zeroDials 50) = _
    rw [hold1 50 (by omega) (by omega)]
    decide
  have h52 : inputRun c4frames zeroDials 52 = c4S3 := by
    show inputStep c4frames 51 (inputRun c4frames zeroDials 51) = _
    rw [h51]
    decide
  have hold2 : ∀ t, 52 ≤ t → t ≤ 120 → inputRun c4frames zeroDials t = c4S3 := by
    refine inputRun_hold c4frames zeroDials 52 120 c4S3 h52 ?_
    intro t h1t h2
    have hne : (t : Int) ≠ 120 := by omega
    simp [inputStep, c4S3, c4frames, hne]
  have h121 : inputRun c4frames zeroDials 121 =
      { editedFrame := 4, cell := zeroDials
        writes := [(0, zeroDials), (50, vDials), (51, vDials), (120, zeroDials)] } := by
    show inputStep c4frames 120 (inputRun c4frames zeroDials 120) = _
    rw [hold2 120 (by omega) (by omega)]
    decide
  have h122 : inputRun c4frames zeroDials 122 = c4S5 := by
    show inputStep c4frames 121 (inputRun c4frames zeroDials 121) = _
    rw [h121]
    decide
  have hold3 : ∀ t, 122 ≤ t → t ≤ 150 → inputRun c4frames zeroDials t = c4S5 := by
    refine inputRun_hold c4frames zeroDials 122 150 c4S5 h122 ?_
    intro t h1t _
    have hne : (t : Int) ≠ 121 := by omega
    simp [inputStep, c4S5, c4frames, hne]
  intro t ht
  show (inputRun c4persisted zeroDials (t + 1)).cell = _
  rw [c4persisted_eq]
  by_cases hA : t ≤ 49
  · rw [hold1 (t + 1) (by omega) (by omega), if_pos (by omega)]
    rfl
  · by_cases hB : t = 50
    · subst hB
      rw [h51, if_neg (by omega), if_pos (by omega)]
    · by_cases hC : t ≤ 119
      · rw [hold2 (t + 1) (by omega) (by omega), if_neg (by omega), if_pos (by omega)]
        rfl
      · by_cases hD : t = 120
        · subst hD
          rw [h121, if_neg (by omega), if_neg (by omega)]
        · rw [hold3 (t + 1) (by omega) (by omega), if_neg (by omega), if_neg (by omega)]
          rfl

/-- C4 counterexample: replaying the persisted round-trip snapshot also
publishes to the shared live-ControlVector cell at tick 51 (and 121),
because Capture stored each sustained change twice — so the replay does
not publish exclusively at ticks 0, 50 and 120 as claimed (the values
re-published at 51 and 121 are unchanged, so the cell's value still only
changes at 50 and 120). -/
theorem c4_counterexample :
    ((51, vDials) ∈ (inputRun c4persisted zeroDials 150).writes) ∧
    ¬(51 = 0 ∨ 51 = 50 ∨ 51 = 120) := by
  rw [c4replay_eq]
  exact ⟨by decide, by decide⟩

/-- C4 (amended): the Capture session holding `[0,...]` until tick 50,
`[3,0,...]` until tick 120 and `[0,...]` afterwards persists (on natural
completion) the seed frame plus each change twice; replaying it in Input
mode publishes `[0,...]` at tick 0, `[3,0,...]` at ticks 50 and 51 and
`[0,...]` at ticks 120 and 121 and at no other tick, and the cell's
value per tick is `[0,...]` before 50, `[3,0,...]` from 50 to 119 and
`[0,...]` from 120 — it changes at no tick other than 50 and 120. -/
theorem c4_round_trip :
    c4persisted =
      [(zeroDials, 0), (vDials, 50), (vDials, 51), (zeroDials, 120), (zeroDials, 121)] ∧
    (inputRun c4persisted zeroDials 150).writes =
      [(0, zeroDials), (50, vDials), (51, vDials), (120, zeroDials), (121, zeroDials)] ∧
    (∀ t, t ≤ 149 → c4cellAt t =
      (if t < 50 then zeroDials else if t < 120 then vDials else zeroDials)) := by
  refine ⟨by rw [c4persisted_eq]; rfl, ?_, c4cell_trajectory⟩
  rw [c4replay_eq]
  rfl

/-- Witness for C4: the cell holds `[3,0,...]` after tick 60 and
`[0,...]` after tick 130. -/
theorem c4_round_trip_witness :
    (60 ≤ 149 ∧ c4cellAt 60 = vDials) ∧ (130 ≤ 149 ∧ c4cellAt 130 = zeroDials) :=
  ⟨⟨by decide, by simpa using c4_round_trip.2.2 60 (by decide)⟩,
   ⟨by decide, by simpa using c4_round_trip.2.2 130 (by decide)⟩⟩

/-- The source's first-match carry-forward loop computes exactly the
spec's `find?`-style rebuild of one entry. -/
theorem syncEntry_eq_find (old : List Recording) (n : String) :
    syncEntry old n = specRebuildEntry old n := by
  induction old with
  | nil => rfl
  | cons r rest ih =>
    by_cases h : r.name = n
    · simp [syncEntry, specRebuildEntry, List.find?_cons, h]
    · cases rest with
      | nil => simp [syncEntry, specRebuildEntry, List.find?_cons, h]
      | cons r2 rest2 =>
        have hstep : syncEntry (r :: r2 :: rest2) n = syncEntry (r2 :: rest2) n := by
          simp [syncEntry, h]
        rw [hstep, ih]
        simp [specRebuildEntry, List.find?_cons, h]

/-- Every rebuilt entry carries exactly the clip name it was built for. -/
theorem syncEntry_name (old : List Recording) (n : String) :
    (syncEntry old n).name = n := by
  rw [syncEntry_eq_find, specRebuildEntry]
  cases old.find? (fun r => r.name = n) with
  | none => rfl
  | some r => rfl

/-- Rebuilding from a name and parsed controls only replaces the name. -/
theorem Recording.from_parse (n : String) (r : Recording) :
    Recording.from n r.parse = { r with name := n } := rfl

/-- Scanning for an element known to be in the list finds exactly it. -/
theorem find?_eq_of_mem (l : List String) (n : String) (h : n ∈ l) :
    l.find? (fun m => m = n) = some n := by
  induction l with
  | nil => cases h
  | cons a rest ih =>
    by_cases ha : a = n
    · subst ha
      simp [List.find?_cons]
    · have hm : n ∈ rest := by
        rcases List.mem_cons.mp h with h1 | h1
        · exact absurd h1.symm ha
        · exact h1
      simp [List.find?_cons, ha, ih hm]

/-- C9: the rebuilt catalog is exactly the ordered clip-name list mapped
through carry-forward-or-fresh (first matching old entry's controls kept,
otherwise a zeroed Recording); it replaces the old catalog entirely, so
its names are the clip names and every old Recording whose name is absent
from the clip list is dropped. -/
theorem c9_sync_rebuild (fileNames : List String) (old : List Recording) :
    syncRecordings fileNames old = fileNames.map (specRebuildEntry old) ∧
    (syncRecordings fileNames old).map (fun r => r.name) = fileNames ∧
    (∀ r, r ∈ old → r.name ∉ fileNames →
      ∀ r2, r2 ∈ syncRecordings fileNames old → r2.name ≠ r.name) := by
  refine ⟨?_, ?_, ?_⟩
  · unfold syncRecordings
    exact List.map_congr_left (fun n _ => syncEntry_eq_find old n)
  · unfold syncRecordings
    rw [List.map_map]
    have hc : List.map ((fun r => r.name) ∘ syncEntry old) fileNames =
        List.map id fileNames :=
      List.map_congr_left (fun n _ => syncEntry_name old n)
    rw [hc, List.map_id]
  · intro r _ hnot r2 hr2 heq
    rcases List.mem_map.mp hr2 with ⟨n, hn, rfl⟩
    rw [syncEntry_name old n] at heq
    exact hnot (heq ▸ hn)

/-- Witness for C9 at a concrete catalog: controls are carried forward
for a surviving name, a fresh zeroed entry is created for a new clip, and
an old entry whose clip vanished is dropped. -/
theorem c9_sync_rebuild_witness :
    syncRecordings ["Y", "Z"] [Recording.from "X" [1, 2, 3, 4, 5, 6], Recording.new "Y"] =
      (["Y", "Z"].map (specRebuildEntry
        [Recording.from "X" [1, 2, 3, 4, 5, 6], Recording.new "Y"])) ∧
    (Recording.from "X" [1, 2, 3, 4, 5, 6]) ∈
      ([Recording.from "X" [1, 2, 3, 4, 5, 6], Recording.new "Y"] : List Recording) ∧
    "X" ∉ (["Y", "Z"] : List String) ∧
    (∀ r2, r2 ∈ syncRecordings ["Y", "Z"]
        [Recording.from "X" [1, 2, 3, 4, 5, 6], Recording.new "Y"] →
      r2.name ≠ "X") :=
  ⟨(c9_sync_rebuild ["Y", "Z"] _).1, by decide, by decide,
    fun r2 hr2 => (c9_sync_rebuild ["Y", "Z"]
      [Recording.from "X" [1, 2, 3, 4, 5, 6], Recording.new "Y"]).2.2
      (Recording.from "X" [1, 2, 3, 4, 5, 6]) (by decide) (by decide) r2 hr2⟩

/-- C8: reconciliation is idempotent — rebuilding from the same clip-name
list twice yields the same catalog as rebuilding once (entries, names,
controls and order all preserved; nothing duplicated or dropped). -/
theorem c8_sync_idempotent (fileNames : List String) (old : List Recording) :
    syncRecordings fileNames (syncRecordings fileNames old) =
      syncRecordings fileNames old := by
  unfold syncRecordings
  refine List.map_congr_left ?_
  intro n hn
  rw [syncEntry_eq_find, syncEntry_eq_find]
  show specRebuildEntry (List.map (syncEntry old) fileNames) n = specRebuildEntry old n
  rw [specRebuildEntry, List.find?_map]
  have hpred : ((fun r => decide (r.name = n)) ∘ syncEntry old) =
      (fun m => decide (m = n)) := by
    funext m
    simp [Function.comp, syncEntry_name]
  rw [hpred, find?_eq_of_mem fileNames n hn]
  show Recording.from n (syncEntry old n).parse = specRebuildEntry old n
  rw [syncEntry_eq_find]
  have hname : (specRebuildEntry old n).name = n := by
    rw [← syncEntry_eq_find]
    exact syncEntry_name old n
  set r := specRebuildEntry old n with hr
  rw [Recording.from_parse, ← hname]

/-- The shuffle loop emits a permutation of whatever list of available
numbers it starts from: each emitted value is removed before the next
draw. -/
theorem shuffleGo_perm (r : Nat → Nat) :
    ∀ (fuel : Nat) (avail : List Nat) (step : Nat), avail.length ≤ fuel →
      List.Perm (shuffleGo r avail step) avail := by
  intro fuel
  induction fuel with
  | zero =>
    intro avail step h
    cases avail with
    | nil => rw [shuffleGo]
    | cons a rest => simp at h
  | succ fuel ih =>
    intro avail step h
    cases avail with
    | nil => rw [shuffleGo]
    | cons a rest =>
      rw [shuffleGo]
      show List.Perm
        ((a :: rest).getD (r step % (a :: rest).length) 0 ::
          shuffleGo r ((a :: rest).eraseIdx (r step % (a :: rest).length)) (step + 1))
        (a :: rest)
      have hidx : r step % (a :: rest).length < (a :: rest).length :=
        Nat.mod_lt _ (by simp)
      rw [List.getD_eq_getElem _ _ hidx]
      have hlen : ((a :: rest).eraseIdx (r step % (a :: rest).length)).length ≤ fuel := by
        rw [List.length_eraseIdx]
        simp only [hidx, if_true]
        simp at h ⊢
        omega
      have h1 := ih ((a :: rest).eraseIdx (r step % (a :: rest).length)) (step + 1) hlen
      have h2 : List.Perm (a :: rest)
          ((a :: rest)[r step % (a :: rest).length] ::
            (a :: rest).erase (a :: rest)[r step % (a :: rest).length]) :=
        List.perm_cons_erase (List.getElem_mem hidx)
      have h3 : List.Perm
          ((a :: rest).erase (a :: rest)[r step % (a :: rest).length])
          ((a :: rest).eraseIdx (r step % (a :: rest).length)) :=
        List.erase_getElem hidx
      exact (h1.cons _).trans ((h3.symm.cons _).trans h2.symm)

/-- C10: for every n >= 1 (and every sequence of random draws)
`Recording::shuffle` returns exactly n indices forming a permutation of
`{0, ..., n-1}`: each index appears exactly once, so indexing the
recordings list with any element of the shuffle order stays in bounds. -/
theorem c10_shuffle_perm (r : Nat → Nat) (n : Nat) (_h : 1 ≤ n) :
    (Recording.shuffle r n).length = n ∧
    List.Perm (Recording.shuffle r n) (List.range n) ∧
    (∀ x ∈ Recording.shuffle r n, x < n) := by
  have hperm : List.Perm (Recording.shuffle r n) (List.range n) :=
    shuffleGo_perm r (List.range n).length (List.range n) 0 (Nat.le_refl _)
  refine ⟨?_, hperm, ?_⟩
  · rw [hperm.length_eq, List.length_range]
  · intro x hx
    exact List.mem_range.mp (hperm.mem_iff.mp hx)

/-- Witness for C10 at n = 3 with a concrete draw sequence. -/
theorem c10_shuffle_perm_witness :
    1 ≤ 3 ∧
    ((Recording.shuffle (fun k => 2 * k + 1) 3).length = 3 ∧
      List.Perm (Recording.shuffle (fun k => 2 * k + 1) 3) (List.range 3) ∧
      (∀ x ∈ Recording.shuffle (fun k => 2 * k + 1) 3, x < 3)) :=
  ⟨by decide, c10_shuffle_perm (fun k => 2 * k + 1) 3 (by decide)⟩

/-- C7 counterexample: renaming `[A, B]` to `["", "C"]` with a
filesystem that would succeed rejects the first entry with `EmptyError`
and keeps its old name — but the second, independent entry (a valid
rename of B to C) is never processed: the returned list holds only the
first entry, no name `C` appears anywhere, and no filesystem rename was
attempted, refuting the claim that other entries in the batch are still
processed. -/
theorem c7_counterexample :
    Recording.rename (fun _ _ => none) [Recording.new "A", Recording.new "B"] ["", "C"] =
      Sum.inr ([Recording.new "A"], Error.EmptyError) ∧
    renameOps (fun _ _ => none) [Recording.new "A", Recording.new "B"] ["", "C"] = [] ∧
    (∀ r ∈ [Recording.new "A"], r.name ≠ "C") := by
  exact ⟨by decide, by decide, by decide⟩

/-- A validation-failing entry stops the rename loop: the unchanged entry
is pushed, the flag for its specific error is raised, and nothing else
changes — entries after it are never examined. -/
theorem renameLoop_fail (fs : String → String → Option Error) (old : List Recording)
    (new : List String) (r : Recording) (rest : List Recording) (i : Nat)
    (acc : RenameAcc) (e : Error)
    (he : entryError old r (new.getD i "") = some e)
    (hf : acc.fallbackE = false) (hs : acc.saveFileE = false)
    (hm : acc.emptyE = false) (hx : acc.existsE = false) :
    renameLoop fs old new (r :: rest) i acc =
      { list := acc.list ++ [Recording.from r.name r.parse]
        ops := acc.ops
        fallbackE := decide (e = Error.FallbackError)
        emptyE := decide (e = Error.EmptyError)
        existsE := decide (e = Error.ExistsError)
        saveFileE := decide (e = Error.SaveFileRenameError)
        renameFailed := acc.renameFailed } := by
  obtain ⟨al, ao, af, ae, ax, asf, ar⟩ := acc
  simp only at hf hs hm hx
  subst hf hs hm hx
  simp only [renameLoop]
  unfold entryError at he
  split_ifs at he ⊢ <;> simp_all
  all_goals (subst he; decide)

/-- A validation-passing entry advances the rename loop: the (possibly)
renamed entry is pushed, a filesystem rename is attempted exactly when
the name changed, and the loop continues with the next index. -/
theorem renameLoop_ok (fs : String → String → Option Error) (old : List Recording)
    (new : List String) (r : Recording) (rest : List Recording) (i : Nat)
    (acc : RenameAcc)
    (he : entryError old r (new.getD i "") = none) :
    renameLoop fs old new (r :: rest) i acc =
      renameLoop fs old new rest (i + 1)
        { acc with
          list := acc.list ++ [Recording.from (new.getD i "") r.parse]
          ops := acc.ops ++
            (if new.getD i "" ≠ r.name then [(r.name, new.getD i "")] else [])
          renameFailed :=
            if new.getD i "" ≠ r.name then
              (match fs r.name (new.getD i "") with
               | some e2 => some e2
               | none => acc.renameFailed)
            else acc.renameFailed } := by
  simp only [renameLoop]
  unfold entryError at he
  split_ifs at he ⊢ <;> simp_all

/-- Walking the rename loop across a run of validation-passing entries:
each is processed (renamed when changed), the filesystem operations and
failure slot accumulate, and the loop resumes on the suffix. -/
theorem renameLoop_walk (fs : String → String → Option Error) (old : List Recording)
    (new : List String) :
    ∀ (pre : List Recording) (npre : List String) (rsuf : List Recording) (i : Nat)
      (acc : RenameAcc),
      npre.length = pre.length →
      (∀ p ∈ pre.zip npre, entryError old p.1 p.2 = none) →
      (∀ k, k < pre.length → new.getD (i + k) "" = npre.getD k "") →
      renameLoop fs old new (pre ++ rsuf) i acc =
        renameLoop fs old new rsuf (i + pre.length)
          { acc with
            list := acc.list ++ (pre.zip npre).map (fun p => Recording.from p.2 p.1.parse)
            ops := acc.ops ++
              ((pre.zip npre).filter (fun p => p.2 ≠ p.1.name)).map
                (fun p => (p.1.name, p.2))
            renameFailed := renameFailFold fs (pre.zip npre) acc.renameFailed } := by
  intro pre
  induction pre with
  | nil =>
    intro npre rsuf i acc hlen _ _
    have hnil : npre = [] := List.eq_nil_of_length_eq_zero hlen
    subst hnil
    simp [renameFailFold]
  | cons p pre' ih =>
    intro npre rsuf i acc hlen hvalid hidx
    cases npre with
    | nil => simp at hlen
    | cons np npre' =>
      have hn0 : new.getD i "" = np := by
        have h0 := hidx 0 (by simp)
        simpa using h0
      have hev : entryError old p (new.getD i "") = none := by
        rw [hn0]
        exact hvalid (p, np) (by simp)
      rw [List.cons_append, renameLoop_ok fs old new p (pre' ++ rsuf) i acc hev, hn0]
      have hidx' : ∀ k, k < pre'.length → new.getD (i + 1 + k) "" = npre'.getD k "" := by
        intro k hk
        have h2 := hidx (k + 1) (by simpa using Nat.succ_lt_succ hk)
        have h3 : i + (k + 1) = i + 1 + k := by omega
        rw [h3] at h2
        simpa using h2
      rw [ih npre' rsuf (i + 1) _ (by simpa using hlen)
        (fun q hq => hvalid q (List.mem_cons_of_mem _ hq)) hidx']
      have hlen2 : i + 1 + pre'.length = i + (p :: pre').length := by
        simp
        omega
      rw [hlen2]
      congr 1
      by_cases hnp : np ≠ p.name
      · simp [hnp, renameFailFold, List.filter_cons, List.append_assoc]
      · have hnp2 : np = p.name := by
          by_contra hc
          exact hnp hc
        simp [hnp2, renameFailFold, List.filter_cons, List.append_assoc]

/-- The validation chain only ever yields one of the four rename
validation errors. -/
theorem entryError_cases (old : List Recording) (r : Recording) (n : String)
    (e : Error) (h : entryError old r n = some e) :
    e = Error.FallbackError ∨ e = Error.SaveFileRenameError ∨
      e = Error.EmptyError ∨ e = Error.ExistsError := by
  unfold entryError at h
  split_ifs at h
  · exact Or.inl (Option.some.inj h).symm
  · exact Or.inr (Or.inl (Option.some.inj h).symm)
  · exact Or.inr (Or.inr (Or.inl (Option.some.inj h).symm))
  · exact Or.inr (Or.inr (Or.inr (Option.some.inj h).symm))

/-- Rebuilding an entry from its own name and parsed controls is the
identity. -/
theorem Recording.from_name_parse (r : Recording) :
    Recording.from r.name r.parse = r := rfl

/-- C7 (amended): in a batch rename whose entries up to some position all
pass validation, a first entry whose new name is the reserved settings
name, empty, another recording's existing name, or fallback-marked keeps
its old name, has no filesystem rename attempted for it, and the
corresponding specific error is returned — but the batch stops there:
earlier entries are processed normally (their renames are attempted and
applied) while every entry after the failing one is skipped entirely and
omitted from the returned list; only filesystem I/O failures on earlier
entries leave processing running. -/
theorem c7_rename_rejection (fs : String → String → Option Error)
    (pre post : List Recording) (npre : List String) (r : Recording) (n : String)
    (npost : List String) (e : Error)
    (hlen : npre.length = pre.length)
    (hvalid : ∀ p ∈ pre.zip npre, entryError (pre ++ r :: post) p.1 p.2 = none)
    (hfail : entryError (pre ++ r :: post) r n = some e) :
    Recording.rename fs (pre ++ r :: post) (npre ++ n :: npost) =
      Sum.inr ((pre.zip npre).map (fun p => Recording.from p.2 p.1.parse) ++ [r], e) ∧
    renameOps fs (pre ++ r :: post) (npre ++ n :: npost) =
      ((pre.zip npre).filter (fun p => p.2 ≠ p.1.name)).map
        (fun p => (p.1.name, p.2)) := by
  have hidx : ∀ k, k < pre.length →
      (npre ++ n :: npost).getD (0 + k) "" = npre.getD k "" := by
    intro k hk
    rw [Nat.zero_add]
    exact List.getD_append _ _ _ _ (by omega)
  have hwalk := renameLoop_walk fs (pre ++ r :: post) (npre ++ n :: npost)
    pre npre (r :: post) 0 renameAccInit hlen hvalid hidx
  have hgn : (npre ++ n :: npost).getD (0 + pre.length) "" = n := by
    rw [Nat.zero_add, List.getD_append_right _ _ _ _ (by omega)]
    have h0 : pre.length - npre.length = 0 := by omega
    rw [h0]
    rfl
  have hfail2 : entryError (pre ++ r :: post) r
      ((npre ++ n :: npost).getD (0 + pre.length) "") = some e := by
    rw [hgn]
    exact hfail
  have hfstep := renameLoop_fail fs (pre ++ r :: post) (npre ++ n :: npost) r post
    (0 + pre.length)
    { renameAccInit with
      list := renameAccInit.list ++
        (pre.zip npre).map (fun p => Recording.from p.2 p.1.parse)
      ops := renameAccInit.ops ++
        ((pre.zip npre).filter (fun p => p.2 ≠ p.1.name)).map
          (fun p => (p.1.name, p.2))
      renameFailed := renameFailFold fs (pre.zip npre) renameAccInit.renameFailed }
    e hfail2 rfl rfl rfl rfl
  constructor
  · simp only [Recording.rename]
    rw [hwalk, hfstep]
    rcases entryError_cases _ _ _ _ hfail with he | he | he | he <;> subst he <;>
      simp [renameAccInit, Recording.from_name_parse]
  · simp only [renameOps]
    rw [hwalk, hfstep]
    simp [renameAccInit]

/-- Witness for C7: a two-entry batch where the first entry's rename to
`A2` is valid and the second proposes the reserved name `settings` — the
first entry is processed (with its filesystem rename), the second keeps
its old name, and `SaveFileRenameError` is returned. -/
theorem c7_rename_rejection_witness :
    Recording.rename (fun _ _ => none)
        ([Recording.new "A"] ++ Recording.new "B" :: [])
        (["A2"] ++ "settings" :: []) =
      Sum.inr
        ((([Recording.new "A"].zip ["A2"]).map
          (fun p => Recording.from p.2 p.1.parse)) ++ [Recording.new "B"],
         Error.SaveFileRenameError) ∧
    renameOps (fun _ _ => none)
        ([Recording.new "A"] ++ Recording.new "B" :: [])
        (["A2"] ++ "settings" :: []) =
      (([Recording.new "A"].zip ["A2"]).filter (fun p => p.2 ≠ p.1.name)).map
        (fun p => (p.1.name, p.2)) :=
  c7_rename_rejection (fun _ _ => none) [Recording.new "A"] [] ["A2"]
    (Recording.new "B") "settings" [] Error.SaveFileRenameError
    (by decide) (by decide) (by decide)

end Audio
